import Mathlib

/-!
Verification of the image conversion core of `tools/convertImage.py`
(PlayStation 1 image/texture data converter).

The script converts an RGBA8 image either to raw 16bpp data (`to16bpp`) or
to 4bpp/8bpp indexed data plus a 16bpp palette (`quantizeImage`,
`getImagePalette`, `convertIndexedImage`), dispatched by `main`.

This file gives a shallow embedding of that core.  All numpy array
operations in the source are elementwise or row-wise, so arrays are
embedded as lists (`List (List _)` for 2-D arrays, row major) and the
elementwise pixel operation is factored out as a scalar function.  Machine
integers (`numpy.uint8` / `numpy.uint16`) are embedded as `Nat` with an
explicit `% 2 ^ w` at the operations where the dtype could wrap.  Python
exceptions (`RuntimeError` from `quantizeImage`, `ValueError` from inside
numpy) are embedded as `Except` errors.

The file is laid out as the full embedding first, then the theorems.
-/

instance {ε : Type} {α : Type} [DecidableEq ε] [DecidableEq α] :
    DecidableEq (Except ε α) := fun a b =>
  match a, b with
  | .error e, .error f =>
    if h : e = f then .isTrue (congrArg Except.error h)
    else .isFalse (fun hh => h (Except.error.inj hh))
  | .ok x, .ok y =>
    if h : x = y then .isTrue (congrArg Except.ok h)
    else .isFalse (fun hh => h (Except.ok.inj hh))
  | .error _, .ok _ => .isFalse (fun hh => Except.noConfusion hh)
  | .ok _, .error _ => .isFalse (fun hh => Except.noConfusion hh)

namespace ConvertImage

/-- One RGBA8 color, as the 4-byte row numpy sees it: (R, G, B, A). -/
abbrev RGBA := Nat × Nat × Nat × Nat

/-- A color whose four components are in the byte range, i.e. an actual
RGBA8 color as stored in a `uint8` numpy array. -/
def ValidColor (c : RGBA) : Prop :=
  c.1 < 256 ∧ c.2.1 < 256 ∧ c.2.2.1 < 256 ∧ c.2.2.2 < 256

instance (c : RGBA) : Decidable (ValidColor c) := by
  unfold ValidColor; infer_instance

/-- Errors raised by the embedded script: the `RuntimeError` of
`quantizeImage` (carrying the two counts interpolated into its message)
and `ValueError` raised inside numpy. -/
inductive ConvError where
  | tooManyColors (actual limit : Nat)
  | valueError (msg : String)
deriving DecidableEq

/-! ### Constants (source lines 72-80) -/

def LOWER_ALPHA_BOUND : Nat := 32
def UPPER_ALPHA_BOUND : Nat := 224
def TRANSPARENT_COLOR : Nat := 0x0000
def BLACK_COLOR : Nat := 0x0421
def STP_BLACK_COLOR : Nat := 0x8000

/-! ### `to16bpp` (source lines 82-114) -/

/-- Per-channel 8-bit to 5-bit rescale `((source * 31) + 127) // 255`,
computed in the `uint16` dtype of `source = inputData.astype("<H")`: the
multiply-add is reduced `% 2 ^ 16` as the dtype would. -/
def scale5 (c : Nat) : Nat := (c * 31 + 127) % 65536 / 255

/-- Solid color word `r | (g << 5) | (b << 10)` of one pixel. -/
def solidWord (c : RGBA) : Nat :=
  scale5 c.1 ||| (scale5 c.2.1 <<< 5) ||| (scale5 c.2.2.1 <<< 10)

/-- Scalar restriction of `to16bpp` to a single pixel of an RGBA input
(`inputData.shape[2] == 4`, the only shape the claims concern).  All numpy
operations in `to16bpp` are elementwise, so the whole function is this
computation mapped over the array.  The three `np.copyto` calls are
applied in source order: `semitransparent` where
`alpha >= LOWER_ALPHA_BOUND`, then (only when `not forceSTP`) `solid`
where `alpha >= UPPER_ALPHA_BOUND`, then the black remap where
additionally `solid == TRANSPARENT_COLOR`. -/
def encodePixel (c : RGBA) (forceSTP useSTPBlack : Bool) : Nat :=
  let solid := solidWord c
  let semitransparent := solid ||| (1 <<< 15)
  let a := c.2.2.2
  let d1 := if LOWER_ALPHA_BOUND ≤ a then semitransparent else TRANSPARENT_COLOR
  if forceSTP then
    d1
  else
    let d2 := if UPPER_ALPHA_BOUND ≤ a then solid else d1
    if UPPER_ALPHA_BOUND ≤ a ∧ solid = TRANSPARENT_COLOR then
      if useSTPBlack then STP_BLACK_COLOR else BLACK_COLOR
    else
      d2

/-- Whole-array `to16bpp` over a 2-D RGBA input. -/
def to16bpp (pixels : List (List RGBA)) (forceSTP useSTPBlack : Bool) :
    List (List Nat) :=
  pixels.map (fun row => row.map (fun c => encodePixel c forceSTP useSTPBlack))

/-! ### `quantizeImage` (source lines 28-54)

The call `np.unique(image.reshape(-1, 4), return_inverse = True, axis = 0)`
returns the distinct RGBA8 rows of the flattened image, sorted in
ascending lexicographic row order, together with, for each input pixel,
the position of its row in that sorted sequence.  For byte-valued rows,
lexicographic row order coincides with the numeric order of the 4-byte
big-endian key, which is how the sorted distinct list is built here.  The
inverse array is then cast to `uint8` by `image.astype("B")`, hence the
`% 256`. -/

/-- Sort key of a color: the 4 bytes R major, then G, then B, then A.  On
byte tuples its numeric order is exactly numpy's lexicographic row
order. -/
def keyOf (c : RGBA) : Nat :=
  ((c.1 * 256 + c.2.1) * 256 + c.2.2.1) * 256 + c.2.2.2

def keyLe (x y : RGBA) : Prop := keyOf x ≤ keyOf y

instance : DecidableRel keyLe := fun x y =>
  inferInstanceAs (Decidable (keyOf x ≤ keyOf y))

instance : IsTotal RGBA keyLe := ⟨fun x y => Nat.le_total (keyOf x) (keyOf y)⟩

instance : IsTrans RGBA keyLe := ⟨fun _ _ _ => Nat.le_trans⟩

/-- Distinct pixel values in ascending row order: the `clut` computed by
`np.unique(..., axis = 0)`. -/
def quantClut (image : List RGBA) : List RGBA :=
  List.insertionSort keyLe image.dedup

/-- Position of the first occurrence of a color in a list, with equality
decided componentwise (as numpy compares rows). -/
def rgbaIndexOf (p : RGBA) (l : List RGBA) : Nat :=
  @List.indexOf RGBA instBEqOfDecidableEq p l

/-- Inverse array computed by `np.unique(..., return_inverse = True)`
after the `astype("B")` cast: for each pixel, the position of its color in
`quantClut`, reduced to the `uint8` range. -/
def quantIdx (image : List RGBA) : List Nat :=
  image.map (fun p => rgbaIndexOf p (quantClut image) % 256)

/-- Embedding of `quantizeImage`, observed through the quantized image it
builds: the palette installed by `putpalette` and the index data of the
new `"P"` mode image, or the `RuntimeError` carrying the unique-color
count and the limit. -/
def quantizeImage (image : List RGBA) (numColors : Nat) :
    Except ConvError (List RGBA × List Nat) :=
  if (quantClut image).length > numColors then
    .error (.tooManyColors (quantClut image).length numColors)
  else
    .ok (quantClut image, quantIdx image)

/-- Ascending lexicographic byte order on RGBA8 tuples, R major, then G,
then B, then A — the palette ordering the specification promises. -/
def lexLe (x y : RGBA) : Prop :=
  x.1 < y.1 ∨ (x.1 = y.1 ∧ (x.2.1 < y.2.1 ∨ (x.2.1 = y.2.1 ∧
    (x.2.2.1 < y.2.2.1 ∨ (x.2.2.1 = y.2.2.1 ∧ x.2.2.2 ≤ y.2.2.2)))))

/-! ### `getImagePalette` (source lines 56-67)

The base palette comes from `imageObj.getpalette("RGBA")` (alpha filled
with 255 when the stored palette has none); it is embedded as the
`palette` argument.  When the image carries a separate `"transparency"`
byte array, the source runs

  `clut[:, 3] = np.frombuffer(alpha.ljust(clut.shape[0], b"\xff"))`

`np.frombuffer` is called without a `dtype` argument, so it uses numpy's
default dtype `float64`: the padded byte string is reinterpreted as 8-byte
little-endian IEEE-754 doubles.  If its length is not a multiple of 8,
numpy raises `ValueError: buffer size must be a multiple of element size`.
Otherwise the resulting float array is assigned into the `uint8` alpha
column, which broadcasts (exact length match, or a single element
broadcast over the whole column, else `ValueError`) and C-casts each
double to `uint8`. -/

/-- Little-endian byte group read as a natural number (the raw bit pattern
of one `float64` element of `np.frombuffer`). -/
def bytesToNatLE (chunk : List Nat) : Nat :=
  chunk.foldr (fun byte acc => acc * 256 + byte % 256) 0

/-- Split a flat list into `h` consecutive chunks of `w` elements: numpy's
`reshape((h, w))`, and the elementwise grouping of `frombuffer`. -/
def chunkRows (w : Nat) : Nat → List Nat → List (List Nat)
  | 0, _ => []
  | h + 1, l => l.take w :: chunkRows w h (l.drop w)

/-- C cast of one `float64` (given by its bit pattern) to `uint8`, as
numpy performs it on x86: truncate toward zero, convert to a 64-bit signed
integer (values out of range, NaN and infinities collapse to the minimal
64-bit integer), keep the low byte.  Only the structural behavior of the
transparency merge matters for the claims below; the numeric values are
included for completeness of the embedding. -/
def f64ToU8 (bits : Nat) : Nat :=
  let sign := bits / 2 ^ 63
  let expo := bits / 2 ^ 52 % 2 ^ 11
  let mant := bits % 2 ^ 52
  if expo = 2047 then 0
  else
    let mag : Nat :=
      if expo = 0 then mant >>> 1074
      else if 1075 ≤ expo then (2 ^ 52 + mant) <<< (expo - 1075)
      else (2 ^ 52 + mant) >>> (1075 - expo)
    let t : Int := if sign = 1 then -(mag : Int) else (mag : Int)
    let t : Int := if t < -(2 ^ 63) ∨ (2 ^ 63 : Int) ≤ t then -(2 ^ 63) else t
    (t % 256).toNat

/-- Replacement of the alpha component of a color (one cell of the
`clut[:, 3]` column assignment). -/
def setAlpha (c : RGBA) (a : Nat) : RGBA := (c.1, c.2.1, c.2.2.1, a)

/-- Embedding of `getImagePalette`: the stored RGBA palette, with the
separate transparency byte array (when present) merged into the alpha
column through `np.frombuffer` with its default `float64` dtype. -/
def getImagePalette (palette : List RGBA) (transparency : Option (List Nat)) :
    Except ConvError (List RGBA) :=
  match transparency with
  | none => .ok palette
  | some alpha =>
    let padded := alpha ++ List.replicate (palette.length - alpha.length) 0xff
    if padded.length % 8 ≠ 0 then
      .error (.valueError "buffer size must be a multiple of element size")
    else
      let vals := (chunkRows 8 (padded.length / 8) padded).map
        (fun chunk => f64ToU8 (bytesToNatLE chunk))
      if vals.length = palette.length then
        .ok ((palette.zip vals).map (fun cv => setAlpha cv.1 cv.2))
      else if vals.length = 1 then
        .ok (palette.map (fun c => setAlpha c (vals.headD 0)))
      else
        .error (.valueError "could not broadcast input array")

/-- Modelled from the spec: the intended transparency merge of
`getImagePalette` — each transparency entry is one unsigned byte
overwriting the alpha of the palette entry with the same index, and every
palette entry beyond the transparency array's length receives alpha 0xFF
(the array extended with 0xFF for missing trailing indices). -/
def getImagePaletteSpec (palette : List RGBA)
    (transparency : Option (List Nat)) : List RGBA :=
  match transparency with
  | none => palette
  | some alpha =>
    palette.enum.map (fun ic => setAlpha ic.2 (alpha.getD ic.1 0xff))

/-! ### `convertIndexedImage` (source lines 116-152)

The indexed image is embedded as its palette (plus optional transparency
array, both consumed through `getImagePalette` as in the source) and its
index data as a list of rows.  numpy arrays are rectangular, so the width
checks `image.shape[1] % 2` are read off the first row.  The index data
has dtype `uint8` (it comes from `astype("B")` in `quantizeImage`), so the
nibble-packing shift is reduced `% 256` as that dtype would. -/

/-- One row of `image[:, 0::2] | (image[:, 1::2] << 4)`: even columns are
the low nibbles.  Rows have even length whenever this is reached, because
the source pads odd widths first (on a genuinely odd-width array numpy
would fail to broadcast; the trailing singleton case here is
unreachable). -/
def pack4 : List Nat → List Nat
  | a :: b :: rest => (a ||| (b <<< 4) % 256) :: pack4 rest
  | [a] => [a]
  | [] => []

/-- Column padding used twice by `convertIndexedImage`: if the width (the
length of the first row) is odd, append one zero to every row
(`np.c_[image, np.zeros((height, 1), "B")]`). -/
def padWidth (rows : List (List Nat)) : List (List Nat) :=
  if (rows.head?.getD []).length % 2 = 1 then
    rows.map (fun r => r ++ [0])
  else rows

/-- Packing step of `convertIndexedImage`: when the palette fits in 16
colors, nibble-pack every row and pad the packed width to an even byte
count; otherwise leave the rows as one byte per index. -/
def packRows (numColors : Nat) (rows : List (List Nat)) : List (List Nat) :=
  if numColors ≤ 16 then padWidth (rows.map pack4) else rows

/-- Embedding of `convertIndexedImage`: extract the palette, encode it,
pad it to 16 or 256 entries, pad the index data to an even width,
nibble-pack when the palette fits in 16 colors.  `np.zeros` with a
negative size (a palette of more than 256 colors) raises `ValueError`. -/
def convertIndexedImage (palette : List RGBA) (transparency : Option (List Nat))
    (rows : List (List Nat)) (forceSTP useSTPBlack : Bool) :
    Except ConvError (List (List Nat) × List Nat) :=
  match getImagePalette palette transparency with
  | .error e => .error e
  | .ok pal =>
    let clut := pal.map (fun c => encodePixel c forceSTP useSTPBlack)
    let numColors := clut.length
    let target := if numColors ≤ 16 then 16 else 256
    if target < numColors then
      .error (.valueError "negative dimensions are not allowed")
    else
      .ok (packRows numColors (padWidth rows),
        clut ++ List.replicate (target - numColors) 0)

/-! ### `main` (source lines 216-239) -/

/-- The 16bpp branch of `main` (source lines 222-223): the image is
converted to RGBA and passed to `to16bpp` together with `args.force_stp`
only — the `args.stp_black` flag is not forwarded there, so `useSTPBlack`
keeps its default `False` whatever the command line said. -/
def mainDirect16 (pixels : List (List RGBA))
    (forceSTP useSTPBlack : Bool) : List (List Nat) :=
  to16bpp pixels forceSTP false

/-- The indexed branch of `main` (source lines 225-235): quantize the
flattened pixels against `2 ** bpp` colors, rebuild the index rows of the
quantized image (numpy's `reshape((height, width))`), and hand the
quantized image — whose palette is the clut of `quantizeImage` and which
carries no separate transparency data — to `convertIndexedImage` with both
flags. -/
def mainIndexed (pixels : List (List RGBA)) (bpp : Nat)
    (forceSTP useSTPBlack : Bool) :
    Except ConvError (List (List Nat) × List Nat) :=
  match quantizeImage pixels.flatten (2 ^ bpp) with
  | .error e => .error e
  | .ok q =>
    convertIndexedImage q.1 none
      (chunkRows (pixels.head?.getD []).length pixels.length q.2)
      forceSTP useSTPBlack

/-- Image-data component of a conversion result (empty on error). -/
def rowsOf (res : Except ConvError (List (List Nat) × List Nat)) :
    List (List Nat) :=
  match res with
  | .ok r => r.1
  | .error _ => []

/-- Palette component of a conversion result (empty on error). -/
def clutOf (res : Except ConvError (List (List Nat) × List Nat)) : List Nat :=
  match res with
  | .ok r => r.2
  | .error _ => []

/-- Spec-side formulation of the 8-bit to 5-bit channel rescale, exactly
as the specification words it: `(c8 * 31 + 127) / 255` in plain integer
arithmetic with floor division and no width reduction — to be compared
with `scale5` from the source. -/
def spec_scale5 (c : Nat) : Nat := (c * 31 + 127) / 255

end ConvertImage

namespace ConvertImage

/-! ## Theorems -/

/-! ### Color encoder (claims C1, C5, C6) -/

/-- C1: for every RGBA8 color with alpha ≥ 224 whose solid word is 0x0000,
encoding with `forceSTP = false` yields 0x0421 when `useSTPBlack` is false
and 0x8000 when it is true; and encoding with `forceSTP = true` yields
0x8000 (the semitransparent word `solid ||| 0x8000`), untouched by the
remap. -/
theorem encode_black_remap (r g b a : Nat)
    (hr : r < 256) (hg : g < 256) (hb : b < 256) (ha : a < 256)
    (hA : UPPER_ALPHA_BOUND ≤ a)
    (hsolid : solidWord (r, g, b, a) = TRANSPARENT_COLOR) :
    (∀ useSTPBlack, encodePixel (r, g, b, a) false useSTPBlack =
      if useSTPBlack then STP_BLACK_COLOR else BLACK_COLOR)
    ∧ (∀ useSTPBlack, encodePixel (r, g, b, a) true useSTPBlack = 0x8000) := by
  have h32 : LOWER_ALPHA_BOUND ≤ a := by
    unfold LOWER_ALPHA_BOUND; unfold UPPER_ALPHA_BOUND at hA; omega
  constructor
  · intro s
    simp only [encodePixel, Bool.false_eq_true, if_false, hsolid, hA, and_self, if_true,
      if_pos (⟨hA, rfl⟩ : UPPER_ALPHA_BOUND ≤ a ∧ TRANSPARENT_COLOR = TRANSPARENT_COLOR)]
  · intro s
    simp only [encodePixel, if_true, if_pos h32, hsolid]
    unfold TRANSPARENT_COLOR
    decide

/-- Witness for `encode_black_remap` at the opaque black pixel
(0, 0, 0, 255). -/
theorem encode_black_remap_witness :
    encodePixel (0, 0, 0, 255) false true = STP_BLACK_COLOR
    ∧ encodePixel (0, 0, 0, 255) true false = 0x8000 := by
  have h := encode_black_remap 0 0 0 255 (by decide) (by decide) (by decide)
    (by decide) (by decide) (by decide)
  exact ⟨(h.1 true).trans (by decide), h.2 false⟩

/-- C5: for every RGBA8 color with alpha < 32 the encoder returns 0x0000
regardless of its RGB value and of both flags, and for every RGBA8 color
with 32 ≤ alpha < 224 it returns the semitransparent word
`solid ||| 0x8000` for both values of `forceSTP` (and of `useSTPBlack`). -/
theorem encode_alpha_bands (r g b a : Nat) (f s : Bool)
    (hr : r < 256) (hg : g < 256) (hb : b < 256) :
    (a < LOWER_ALPHA_BOUND → encodePixel (r, g, b, a) f s = 0x0000)
    ∧ (LOWER_ALPHA_BOUND ≤ a → a < UPPER_ALPHA_BOUND →
        encodePixel (r, g, b, a) f s = solidWord (r, g, b, a) ||| 0x8000) := by
  constructor
  · intro hlow
    have h1 : ¬ LOWER_ALPHA_BOUND ≤ a := by omega
    have h2 : ¬ UPPER_ALPHA_BOUND ≤ a := by
      unfold LOWER_ALPHA_BOUND at hlow; unfold UPPER_ALPHA_BOUND; omega
    cases f <;>
      simp only [encodePixel, if_pos, if_false, if_true, if_neg h1, if_neg h2,
        h2, false_and, if_neg (by exact fun h => h2 h.1 :
          ¬ (UPPER_ALPHA_BOUND ≤ a ∧ solidWord (r, g, b, a) = TRANSPARENT_COLOR))] <;>
      rfl
  · intro hlo hhi
    have h2 : ¬ UPPER_ALPHA_BOUND ≤ a := by omega
    cases f <;>
      simp only [encodePixel, if_pos hlo, if_neg h2, if_true, Bool.false_eq_true, if_false,
        if_neg (by exact fun h => h2 h.1 :
          ¬ (UPPER_ALPHA_BOUND ≤ a ∧ solidWord (r, g, b, a) = TRANSPARENT_COLOR))] <;>
      rfl

/-- Witness for `encode_alpha_bands`: a red pixel at alpha 0 encodes to
0x0000 and at alpha 128 to its semitransparent word. -/
theorem encode_alpha_bands_witness :
    encodePixel (200, 10, 10, 0) true true = 0x0000
    ∧ encodePixel (200, 10, 10, 128) false false =
        solidWord (200, 10, 10, 128) ||| 0x8000 := by
  have h0 := encode_alpha_bands 200 10 10 0 true true (by decide) (by decide) (by decide)
  have h1 := encode_alpha_bands 200 10 10 128 false false (by decide) (by decide) (by decide)
  exact ⟨h0.1 (by decide), h1.2 (by decide) (by decide)⟩

/-- C6: for every RGBA8 color with alpha ≥ 224 encoded with
`forceSTP = false` whose solid word is nonzero, the result is exactly
`R5 ||| (G5 <<< 5) ||| (B5 <<< 10)` with each 5-bit channel given by the
exact integer formula `(c8 * 31 + 127) / 255` (floor division, a rounded
rescale, not a truncating shift), and the intermediate `c8 * 31 + 127`
never overflows the 16-bit working type for any byte `c8`. -/
theorem encode_solid_formula (r g b a : Nat) (s : Bool)
    (hr : r < 256) (hg : g < 256) (hb : b < 256)
    (hA : UPPER_ALPHA_BOUND ≤ a)
    (hnz : solidWord (r, g, b, a) ≠ TRANSPARENT_COLOR) :
    encodePixel (r, g, b, a) false s =
      spec_scale5 r ||| (spec_scale5 g <<< 5) ||| (spec_scale5 b <<< 10)
    ∧ r * 31 + 127 < 2 ^ 16 ∧ g * 31 + 127 < 2 ^ 16 ∧ b * 31 + 127 < 2 ^ 16 := by
  have hmod : ∀ c : Nat, c < 256 → scale5 c = spec_scale5 c := by
    intro c hc
    unfold scale5 spec_scale5
    rw [Nat.mod_eq_of_lt (by omega)]
  have hsw : solidWord (r, g, b, a) =
      spec_scale5 r ||| (spec_scale5 g <<< 5) ||| (spec_scale5 b <<< 10) := by
    unfold solidWord
    rw [hmod r hr, hmod g hg, hmod b hb]
  refine ⟨?_, by omega, by omega, by omega⟩
  have h32 : LOWER_ALPHA_BOUND ≤ a := by
    unfold LOWER_ALPHA_BOUND; unfold UPPER_ALPHA_BOUND at hA; omega
  simp only [encodePixel, Bool.false_eq_true, if_false, if_pos hA,
    if_neg (by exact fun h => hnz h.2 :
      ¬ (UPPER_ALPHA_BOUND ≤ a ∧ solidWord (r, g, b, a) = TRANSPARENT_COLOR))]
  exact hsw

/-- Witness for `encode_solid_formula` at the opaque white pixel. -/
theorem encode_solid_formula_witness :
    encodePixel (255, 255, 255, 255) false false =
      spec_scale5 255 ||| (spec_scale5 255 <<< 5) ||| (spec_scale5 255 <<< 10)
    ∧ 255 * 31 + 127 < 2 ^ 16 := by
  have h := encode_solid_formula 255 255 255 255 false (by decide) (by decide)
    (by decide) (by decide) (by decide)
  exact ⟨h.1, h.2.1⟩

/-! ### Exact quantizer (claims C7, C8) -/

theorem quantClut_perm (image : List RGBA) :
    List.Perm (quantClut image) image.dedup :=
  List.perm_insertionSort keyLe image.dedup

theorem quantClut_length (image : List RGBA) :
    (quantClut image).length = image.dedup.length :=
  (quantClut_perm image).length_eq

theorem quantClut_nodup (image : List RGBA) : (quantClut image).Nodup :=
  ((quantClut_perm image).nodup_iff).2 (List.nodup_dedup image)

theorem quantClut_mem (image : List RGBA) (c : RGBA) :
    c ∈ quantClut image ↔ c ∈ image :=
  ((quantClut_perm image).mem_iff).trans List.mem_dedup

theorem quantClut_sorted_key (image : List RGBA) :
    (quantClut image).Sorted keyLe :=
  List.sorted_insertionSort keyLe image.dedup

/-- On valid (byte-ranged) colors the key order implies the lexicographic
byte order. -/
theorem keyLe_lexLe {x y : RGBA} (hx : ValidColor x) (hy : ValidColor y)
    (h : keyLe x y) : lexLe x y := by
  obtain ⟨r, g, b, a⟩ := x
  obtain ⟨r', g', b', a'⟩ := y
  unfold ValidColor at hx hy
  unfold keyLe keyOf at h
  unfold lexLe
  simp only at *
  omega

/-- Sorting an already sorted duplicate-free list is the identity, so
`quantClut` is idempotent. -/
theorem quantClut_idem (image : List RGBA) :
    quantClut (quantClut image) = quantClut image := by
  show List.insertionSort keyLe (quantClut image).dedup = quantClut image
  rw [List.dedup_eq_self.2 (quantClut_nodup image)]
  exact (quantClut_sorted_key image).insertionSort_eq

/-- In a duplicate-free list, the index of the `n`-th element is `n`. -/
theorem indexOf_getElem_self {l : List RGBA} (hnd : l.Nodup) (n : Nat)
    (h : n < l.length) : rgbaIndexOf l[n] l = n := by
  unfold rgbaIndexOf
  have hmem : l[n] ∈ l := List.getElem_mem h
  have hlt : @List.indexOf RGBA instBEqOfDecidableEq l[n] l < l.length :=
    List.indexOf_lt_length.2 hmem
  have hget : l[@List.indexOf RGBA instBEqOfDecidableEq l[n] l] = l[n] :=
    List.getElem_indexOf hlt
  exact (hnd.getElem_inj_iff).1 hget

/-- C7: `quantizeImage` fails with the `RuntimeError` reporting the actual
distinct-color count K and the limit L exactly when K > L; otherwise it
succeeds and the returned palette has exactly K entries, contains each of
the image's colors exactly once, and drops, merges and approximates
nothing. -/
theorem quantize_exact (image : List RGBA) (L : Nat) :
    (L < image.dedup.length →
      quantizeImage image L = .error (.tooManyColors image.dedup.length L))
    ∧ (image.dedup.length ≤ L →
      quantizeImage image L = .ok (quantClut image, quantIdx image)
      ∧ (quantClut image).length = image.dedup.length
      ∧ (quantClut image).Nodup
      ∧ (∀ c, c ∈ quantClut image ↔ c ∈ image)) := by
  constructor
  · intro hgt
    unfold quantizeImage
    rw [quantClut_length]
    rw [if_pos hgt]
  · intro hle
    have hnot : ¬ (quantClut image).length > L := by rw [quantClut_length]; omega
    refine ⟨?_, quantClut_length image, quantClut_nodup image, quantClut_mem image⟩
    unfold quantizeImage
    rw [if_neg hnot]

/-- Witness for `quantize_exact`: a two-color image rejected at limit 1,
and a one-color image accepted at limit 2. -/
theorem quantize_exact_witness :
    quantizeImage [(1, 2, 3, 4), (5, 6, 7, 8)] 1 = .error (.tooManyColors 2 1)
    ∧ quantizeImage [(9, 9, 9, 9)] 2 =
        .ok (quantClut [(9, 9, 9, 9)], quantIdx [(9, 9, 9, 9)]) := by
  have h1 := (quantize_exact [(1, 2, 3, 4), (5, 6, 7, 8)] 1).1 (by decide)
  have h2 := (quantize_exact [(9, 9, 9, 9)] 2).2 (by decide)
  exact ⟨h1.trans (by decide), h2.1⟩

/-- C8: the palette returned by `quantizeImage` is the distinct colors of
the image sorted in ascending lexicographic byte order (R major, then G,
then B, then A), each pixel's index being the position of its color in
that sequence (which is what `quantIdx` computes); in particular
re-quantizing the palette's own colors as a 1×N image succeeds and yields
the identity permutation `[0, ..., N-1]` of indices. -/
theorem quantize_palette_order (image : List RGBA)
    (hv : ∀ c ∈ image, ValidColor c) (hK : image.dedup.length ≤ 256) :
    (quantClut image).Sorted lexLe
    ∧ quantizeImage (quantClut image) (quantClut image).length =
        .ok (quantClut image, List.range (quantClut image).length) := by
  have hvc : ∀ c ∈ quantClut image, ValidColor c := fun c hc =>
    hv c ((quantClut_mem image c).1 hc)
  have hlen256 : (quantClut image).length ≤ 256 := by
    rw [quantClut_length]; exact hK
  constructor
  · rw [List.Sorted, List.pairwise_iff_getElem]
    intro i j hi hj hij
    have hk := (List.pairwise_iff_getElem.1 (quantClut_sorted_key image)) i j hi hj hij
    exact keyLe_lexLe (hvc _ (List.getElem_mem hi)) (hvc _ (List.getElem_mem hj)) hk
  · have hidx : quantIdx (quantClut image) = List.range (quantClut image).length := by
      unfold quantIdx
      rw [quantClut_idem]
      refine List.ext_getElem (by simp) ?_
      intro n h1 h2
      rw [List.getElem_map, List.getElem_range]
      have hn : n < (quantClut image).length := by simpa using h1
      rw [indexOf_getElem_self (quantClut_nodup image) n hn]
      exact Nat.mod_eq_of_lt (by omega)
    unfold quantizeImage
    rw [quantClut_idem, if_neg (lt_irrefl _), hidx]

/-- Witness for `quantize_palette_order` at a concrete two-color image. -/
theorem quantize_palette_order_witness :
    (quantClut [((255 : Nat), 255, 255, 255), (0, 0, 0, 255)]).Sorted lexLe
    ∧ quantizeImage (quantClut [((255 : Nat), 255, 255, 255), (0, 0, 0, 255)])
        (quantClut [((255 : Nat), 255, 255, 255), (0, 0, 0, 255)]).length =
      .ok (quantClut [((255 : Nat), 255, 255, 255), (0, 0, 0, 255)],
        List.range (quantClut [((255 : Nat), 255, 255, 255), (0, 0, 0, 255)]).length) :=
  quantize_palette_order [((255 : Nat), 255, 255, 255), (0, 0, 0, 255)]
    (by decide) (by decide)

/-! ### Palette extraction (claim C4)

The transparency merge uses `np.frombuffer` with its default dtype
`float64`, so the transparency bytes are never read as single unsigned
bytes: a padded array whose length is not a multiple of 8 raises
`ValueError`, and one whose length is a multiple of 8 is reinterpreted as
8-byte doubles.  Both behaviors contradict the intended one-byte-per-entry
contract (`getImagePaletteSpec`). -/

/-- C4 (failure of the claim on the code): on a 1-entry palette with a
1-byte transparency array the source raises `ValueError` inside
`np.frombuffer` (buffer of 1 byte, element size 8), where the intended
contract produces the palette with its alpha overwritten; and on an
8-entry palette with a 1-byte transparency array the source reads the
padded 8 bytes as a single `float64` (here a NaN, cast to 0) and
broadcasts it over all 8 alpha entries, where the intended contract sets
entry 0 to 0x42 and entries 1..7 to 0xFF. -/
theorem getImagePalette_float64_misdecode :
    getImagePalette [(10, 20, 30, 40)] (some [0x42]) =
      .error (.valueError "buffer size must be a multiple of element size")
    ∧ getImagePaletteSpec [(10, 20, 30, 40)] (some [0x42]) = [(10, 20, 30, 0x42)]
    ∧ getImagePalette (List.replicate 8 (1, 2, 3, 4)) (some [0x42]) =
        .ok (List.replicate 8 (1, 2, 3, 0))
    ∧ getImagePaletteSpec (List.replicate 8 (1, 2, 3, 4)) (some [0x42]) =
        (1, 2, 3, 0x42) :: List.replicate 7 (1, 2, 3, 0xff) := by
  refine ⟨rfl, rfl, ?_, rfl⟩
  decide

/-! ### Indexed packer (claims C9, C10) -/

/-- Nibble packing halves the length of an even-length row. -/
theorem pack4_length : ∀ l : List Nat, l.length % 2 = 0 →
    (pack4 l).length = l.length / 2
  | [], _ => rfl
  | [_], h => by simp at h
  | _ :: _ :: rest, h => by
    have hr : rest.length % 2 = 0 := by
      simp only [List.length_cons] at h; omega
    have ih := pack4_length rest hr
    simp only [pack4, List.length_cons, ih]
    omega

/-- Width padding on a rectangular row list yields rows of even width
`w + w % 2`. -/
theorem padWidth_width {w : Nat} {rows : List (List Nat)}
    (hrect : ∀ r ∈ rows, r.length = w) :
    ∀ r ∈ padWidth rows, r.length = w + w % 2 := by
  unfold padWidth
  rcases rows with _ | ⟨r0, rs⟩
  · intro r hr
    split at hr <;> simp at hr
  · by_cases hodd : w % 2 = 1
    · rw [if_pos (by simp only [List.head?_cons, Option.getD_some,
        hrect r0 (by simp)]; exact hodd)]
      intro r hr
      obtain ⟨r', hr', rfl⟩ := List.mem_map.1 hr
      simp [hrect r' hr', hodd]
    · rw [if_neg (by simp only [List.head?_cons, Option.getD_some,
        hrect r0 (by simp)]; exact hodd)]
      intro r hr
      have := hrect r hr
      omega

/-- Behavior of `convertIndexedImage` on a transparency-free indexed image
with at most 256 palette entries: it succeeds, emitting the padded palette
and the padded/packed index rows. -/
theorem convertIndexedImage_ok (palette : List RGBA) (rows : List (List Nat))
    (f s : Bool) (hN : palette.length ≤ 256) :
    convertIndexedImage palette none rows f s =
      .ok (packRows palette.length (padWidth rows),
        palette.map (fun c => encodePixel c f s) ++
          List.replicate ((if palette.length ≤ 16 then 16 else 256) - palette.length) 0) := by
  have hnlt : ¬ ((if (palette.map (fun c => encodePixel c f s)).length ≤ 16 then 16 else 256)
      < (palette.map (fun c => encodePixel c f s)).length) := by
    rw [List.length_map]
    by_cases h16 : palette.length ≤ 16 <;> simp [h16] <;> omega
  unfold convertIndexedImage
  simp only [getImagePalette]
  rw [if_neg hnlt]
  rw [List.length_map]

/-- C9: for every indexed conversion (at most 256 source palette colors,
as the quantizer guarantees), the emitted palette has exactly 16 entries
when the source palette has at most 16 colors and exactly 256 entries
otherwise, with every entry beyond the encoded source palette
zero-filled. -/
theorem clut_fixed_size (palette : List RGBA) (rows : List (List Nat))
    (f s : Bool) (hN : palette.length ≤ 256) :
    (clutOf (convertIndexedImage palette none rows f s)).length =
      (if palette.length ≤ 16 then 16 else 256)
    ∧ (clutOf (convertIndexedImage palette none rows f s)).take palette.length =
        palette.map (fun c => encodePixel c f s)
    ∧ (clutOf (convertIndexedImage palette none rows f s)).drop palette.length =
        List.replicate ((if palette.length ≤ 16 then 16 else 256) - palette.length) 0
    ∧ (convertIndexedImage palette none rows f s).isOk = true := by
  rw [convertIndexedImage_ok palette rows f s hN]
  have hml : (palette.map (fun c => encodePixel c f s)).length = palette.length :=
    List.length_map palette _
  refine ⟨?_, ?_, ?_, rfl⟩
  · simp only [clutOf, List.length_append, List.length_replicate, hml]
    by_cases h16 : palette.length ≤ 16 <;> simp [h16] <;> omega
  · simp only [clutOf]
    rw [← hml, List.take_left]
  · simp only [clutOf]
    rw [← hml, List.drop_left]

/-- Witness for `clut_fixed_size` at a one-color palette. -/
theorem clut_fixed_size_witness :
    (clutOf (convertIndexedImage [(0, 0, 0, 255)] none [[0]] false false)).length =
      (if [((0 : Nat), (0 : Nat), (0 : Nat), (255 : Nat))].length ≤ 16 then 16 else 256)
    ∧ (clutOf (convertIndexedImage [(0, 0, 0, 255)] none [[0]] false false)).take
          [((0 : Nat), (0 : Nat), (0 : Nat), (255 : Nat))].length =
        [((0 : Nat), (0 : Nat), (0 : Nat), (255 : Nat))].map
          (fun c => encodePixel c false false)
    ∧ (clutOf (convertIndexedImage [(0, 0, 0, 255)] none [[0]] false false)).drop
          [((0 : Nat), (0 : Nat), (0 : Nat), (255 : Nat))].length =
        List.replicate
          ((if [((0 : Nat), (0 : Nat), (0 : Nat), (255 : Nat))].length ≤ 16 then 16 else 256)
            - [((0 : Nat), (0 : Nat), (0 : Nat), (255 : Nat))].length) 0
    ∧ (convertIndexedImage [(0, 0, 0, 255)] none [[0]] false false).isOk = true :=
  clut_fixed_size [(0, 0, 0, 255)] [[0]] false false (by decide)

/-- C10: for every indexed conversion of a rectangular index buffer (at
most 256 source palette colors, as the quantizer guarantees), every row of
the emitted image data has an even byte length: an odd-width buffer gets
one appended zero-index column before packing, and when nibble packing
runs, an odd packed byte width gets one appended zero byte per row. -/
theorem row_alignment (palette : List RGBA) (rows : List (List Nat))
    (f s : Bool) (w : Nat) (hN : palette.length ≤ 256)
    (hrect : ∀ r ∈ rows, r.length = w) :
    ∀ r ∈ rowsOf (convertIndexedImage palette none rows f s), r.length % 2 = 0 := by
  rw [convertIndexedImage_ok palette rows f s hN]
  simp only [rowsOf]
  have hpad : ∀ r ∈ padWidth rows, r.length = w + w % 2 := padWidth_width hrect
  have heven : (w + w % 2) % 2 = 0 := by omega
  unfold packRows
  by_cases h16 : palette.length ≤ 16
  · rw [if_pos h16]
    have hpacked : ∀ r ∈ (padWidth rows).map pack4, r.length = (w + w % 2) / 2 := by
      intro r hr
      obtain ⟨r', hr', rfl⟩ := List.mem_map.1 hr
      rw [pack4_length r' (by rw [hpad r' hr']; exact heven), hpad r' hr']
    have hpad2 : ∀ r ∈ padWidth ((padWidth rows).map pack4),
        r.length = (w + w % 2) / 2 + ((w + w % 2) / 2) % 2 := padWidth_width hpacked
    intro r hr
    rw [hpad2 r hr]
    omega
  · rw [if_neg h16]
    intro r hr
    rw [hpad r hr]
    exact heven

/-- Witness for `row_alignment`: a 1×1 index buffer comes out as the
2-byte row [0, 0]. -/
theorem row_alignment_witness :
    [0, 0] ∈ rowsOf (convertIndexedImage [(0, 0, 0, 255)] none [[0]] false false)
    ∧ ([0, 0] : List Nat).length % 2 = 0 :=
  ⟨by decide,
    row_alignment [(0, 0, 0, 255)] [[0]] false false 1 (by decide) (by decide)
      [0, 0] (by decide)⟩

/-! ### Converter orchestration (claims C2, C3) -/

/-- C2 (failure of the claim on the code): the 2×1 image with pixels
(0,0,0,255) and (255,255,255,255), converted at requested depth 8, is
nibble-packed — the two indices 0 and 1 are packed into the single byte
0x10 and the row padded to [0x10, 0x00] — instead of being emitted one
byte per pixel as [0x00, 0x01]: `convertIndexedImage` selects packing by
palette cardinality (≤ 16 colors), never looking at the requested depth.
The palette is indeed padded to 16 entries. -/
theorem mainIndexed_bpp8_packs_nibbles :
    mainIndexed [[(0, 0, 0, 255), (255, 255, 255, 255)]] 8 false false =
      .ok ([[0x10, 0x00]], [0x0421, 0x7FFF] ++ List.replicate 14 0)
    ∧ ([[0x10, 0x00]] : List (List Nat)) ≠ [[0x00, 0x01]] := by
  constructor
  · decide
  · decide

/-- C3 (failure of the claim on the code): at depth 16 `main` forwards
only `args.force_stp` to `to16bpp`, so requesting semitransparent black
(`useSTPBlack = true`) still yields 0x0421 for an opaque black pixel,
while the encoder run with both requested flags — what the claim
promises — yields 0x8000. -/
theorem mainDirect16_ignores_stp_black :
    mainDirect16 [[(0, 0, 0, 255)]] false true = [[BLACK_COLOR]]
    ∧ to16bpp [[(0, 0, 0, 255)]] false true = [[STP_BLACK_COLOR]]
    ∧ mainDirect16 [[(0, 0, 0, 255)]] false true ≠
        to16bpp [[(0, 0, 0, 255)]] false true := by
  refine ⟨by decide, by decide, by decide⟩

end ConvertImage
